import Mathlib

/-!
Shallow embedding of `ChessVar.py`, an Atomic Chess rules engine.

The board is the Python 8x8 list of lists of one-character strings, modelled
as a function `Fin 8 → Fin 8 → Char`.  Python list indexing `l[i]` on a list
of length 8 succeeds for `-8 ≤ i < 8` (negative indices wrap, i.e. the result
is the element at `i mod 8`) and raises `IndexError` otherwise; we model a
possibly-failing access by `bget` (returning `Option Char`, `none` meaning an
exception) and a guaranteed-in-range access by `iget`.  Functions that can
raise in Python return `Option` here, with `none` standing for any raised
exception; the `while` loop of the bishop validator is modelled with fuel,
with fuel exhaustion also mapped to `none`.
-/

/-- The 8x8 game board: cell contents are the Python one-character strings
('.', 'p', 'n', 'b', 'r', 'q', 'k' and their uppercase variants). -/
def Board : Type := Fin 8 → Fin 8 → Char

/-- The index `i mod 8` as a `Fin 8` (Euclidean remainder, so negative `i`
wraps the way Python list indices in `[-8, 0)` do). -/
def finEmod (i : Int) : Fin 8 := ⟨(i % 8).toNat, by omega⟩

/-- Python list indexing on a length-8 list: defined for `-8 ≤ i < 8`
(negative indices wrap), `IndexError` otherwise. -/
def pyIdx (i : Int) : Option (Fin 8) :=
  if -8 ≤ i ∧ i < 8 then some (finEmod i) else none

/-- Board access at integer indices, with Python's wrap-around for indices in
`[-8, 0)`; used only where the source accesses indices in `[-8, 8)`. -/
def iget (b : Board) (r c : Int) : Char := b (finEmod r) (finEmod c)

/-- Python `self._game_board[r][c]` as a possibly-failing access. -/
def bget (b : Board) (r c : Int) : Option Char :=
  match pyIdx r, pyIdx c with
  | some i, some j => some (b i j)
  | _, _ => none

/-- Python `self._game_board[r][c] = v` (in the source always at in-range
indices). -/
def bset (b : Board) (r c : Int) (v : Char) : Board :=
  fun i j => if i = finEmod r ∧ j = finEmod c then v else b i j

/-- The state held by a `ChessVar` instance: `_game_board`,
`_current_player` ('WHITE' or 'BLACK') and `_game_state` ('UNFINISHED',
'WHITE_WON' or 'BLACK_WON'). -/
@[ext]
structure ChessVar where
  game_board : Board
  current_player : String
  game_state : String

/-- `get_game_state`. -/
def get_game_state (g : ChessVar) : String := g.game_state

/-- `chess_notation_to_index`: `return 8 - int(row), ord(column) - ord('a')`.
`int(row)` on a single character succeeds exactly on decimal digits
(otherwise `ValueError`, modelled as `none`). -/
def chess_notation_to_index (sq : Char × Char) : Option (Int × Int) :=
  if '0' ≤ sq.2 ∧ sq.2 ≤ '9' then
    some (8 - ((sq.2.toNat : Int) - ('0'.toNat : Int)),
          (sq.1.toNat : Int) - ('a'.toNat : Int))
  else none

/-- `is_king`: `piece.lower() == 'k'`. -/
def is_king (piece : Char) : Bool := piece.toLower = 'k'

/-- `is_on_board`. -/
def is_on_board (row col : Int) : Bool := decide (0 ≤ row ∧ row < 8 ∧ 0 ≤ col ∧ col < 8)

/-- Python `range(a, b, step)` for `step = 1` or `step = -1`, the only step
values the source uses. -/
def pyRange (a b step : Int) : List Int :=
  if step = 1 then (List.range (b - a).toNat).map (fun (k : Nat) => a + (k : Int))
  else (List.range (a - b).toNat).map (fun (k : Nat) => a - (k : Int))

/-- `is_valid_knight_move`. -/
def is_valid_knight_move (sr sc er ec : Int) : Bool :=
  decide (((sr - er).natAbs = 2 ∧ (sc - ec).natAbs = 1) ∨
          ((sr - er).natAbs = 1 ∧ (sc - ec).natAbs = 2))

/-- The `while current_row != end_row and current_col != end_col` loop of
`is_valid_bishop_move`, with fuel; `none` models an `IndexError` or fuel
exhaustion (the loop body only reads `self._game_board[current_row][current_col]`
and steps both coordinates). -/
def bishop_scan (b : Board) (er ec step_row step_col : Int) :
    Int → Int → Nat → Option Bool
  | _, _, 0 => none
  | cr, cc, fuel + 1 =>
    if cr ≠ er ∧ cc ≠ ec then
      match bget b cr cc with
      | none => none
      | some piece =>
        if piece = '.' then bishop_scan b er ec step_row step_col (cr + step_row) (cc + step_col) fuel
        else some false
    else some true

/-- `is_valid_bishop_move`. -/
def is_valid_bishop_move (b : Board) (sr sc er ec : Int) : Option Bool :=
  if (sr - er).natAbs ≠ (sc - ec).natAbs then some false
  else
    let step_row : Int := if er > sr then 1 else -1
    let step_col : Int := if ec > sc then 1 else -1
    bishop_scan b er ec step_row step_col (sr + step_row) (sc + step_col) 32

/-- The `for` loops of `is_valid_rook_move`: return `False` on the first
non-empty cell of the path, `True` (fall through) otherwise. -/
def scan_cells (b : Board) : List (Int × Int) → Option Bool
  | [] => some true
  | (r, c) :: rest =>
    match bget b r c with
    | none => none
    | some piece => if piece = '.' then scan_cells b rest else some false

/-- `is_valid_rook_move`. -/
def is_valid_rook_move (b : Board) (current_player : String) (sr sc er ec : Int) :
    Option Bool :=
  if sr ≠ er ∧ sc ≠ ec then some false
  else
    let scanRes :=
      if sr = er then
        let step : Int := if ec > sc then 1 else -1
        scan_cells b ((pyRange (sc + step) ec step).map (fun c => (sr, c)))
      else
        let step : Int := if er > sr then 1 else -1
        scan_cells b ((pyRange (sr + step) er step).map (fun r => (r, sc)))
    match scanRes with
    | none => none
    | some false => some false
    | some true =>
      match bget b er ec with
      | none => none
      | some destination_piece =>
        if destination_piece ≠ '.' then
          some (decide ((destination_piece.isUpper ∧ current_player = "BLACK") ∨
                        (destination_piece.isLower ∧ current_player = "WHITE")))
        else some true

/-- `is_valid_queen_move`: `is_valid_bishop_move(...) or is_valid_rook_move(...)`,
with Python's short-circuit evaluation. -/
def is_valid_queen_move (b : Board) (current_player : String) (sr sc er ec : Int) :
    Option Bool :=
  match is_valid_bishop_move b sr sc er ec with
  | none => none
  | some true => some true
  | some false => is_valid_rook_move b current_player sr sc er ec

/-- `is_valid_king_move`. -/
def is_valid_king_move (b : Board) (sr sc er ec : Int) : Option Bool :=
  if (sr - er).natAbs ≤ 1 ∧ (sc - ec).natAbs ≤ 1 then
    match bget b er ec with
    | none => none
    | some dest_piece => some (decide (dest_piece = '.'))
  else some false

/-- `is_valid_pawn_move`, with Python's short-circuit evaluation order of the
compound conditions (the intermediate cell is read only after
`start_row in (1, 6)` holds, the capture branch reads the destination only
when its guard holds). -/
def is_valid_pawn_move (b : Board) (current_player : String) (sr sc er ec : Int) :
    Option Bool :=
  match bget b sr sc with
  | none => none
  | some piece =>
    let direction : Int := if piece.isLower then 1 else -1
    if sc = ec then
      match bget b er ec with
      | none => none
      | some dest =>
        if dest = '.' then
          if sr + direction = er then some true
          else if sr + 2 * direction = er ∧ (sr = 1 ∨ sr = 6) then
            match bget b (sr + direction) sc with
            | none => none
            | some mid => if mid = '.' then some true else some false
          else some false
        else some false
    else
      if (sc - ec).natAbs = 1 ∧ sr + direction = er then
        match bget b er ec with
        | none => none
        | some dest =>
          some (decide (dest ≠ '.' ∨ (current_player = "WHITE" ∧ dest.isLower) ∨
                        (current_player = "BLACK" ∧ dest.isUpper)))
      else some false

/-- `is_valid_move`. -/
def is_valid_move (g : ChessVar) (sr sc er ec : Int) : Option Bool :=
  if ¬ (0 ≤ sr ∧ sr < 8 ∧ 0 ≤ sc ∧ sc < 8) then some false
  else if ¬ (0 ≤ er ∧ er < 8 ∧ 0 ≤ ec ∧ ec < 8) then some false
  else
    match bget g.game_board sr sc with
    | none => none
    | some piece =>
      if piece = '.' then some false
      else if (piece.isUpper ∧ g.current_player = "BLACK") ∨
              (piece.isLower ∧ g.current_player = "WHITE") then some false
      else if piece.toLower = 'p' then is_valid_pawn_move g.game_board g.current_player sr sc er ec
      else if piece.toLower = 'n' then some (is_valid_knight_move sr sc er ec)
      else if piece.toLower = 'b' then is_valid_bishop_move g.game_board sr sc er ec
      else if piece.toLower = 'r' then is_valid_rook_move g.game_board g.current_player sr sc er ec
      else if piece.toLower = 'q' then is_valid_queen_move g.game_board g.current_player sr sc er ec
      else if piece.toLower = 'k' then is_valid_king_move g.game_board sr sc er ec
      else some false

/-- The clipped 3x3 explosion neighborhood, in the iteration order of the two
nested `for r in range(max(0, row - 1), min(row + 2, 8))` loops. -/
def blast_cells (row col : Int) : List (Int × Int) :=
  (pyRange (max 0 (row - 1)) (min (row + 2) 8) 1).flatMap (fun r =>
    (pyRange (max 0 (col - 1)) (min (col + 2) 8) 1).map (fun c => (r, c)))

/-- `simulate_explosion`: scans the blast neighborhood setting the
`white_king_destroyed` / `black_king_destroyed` flags, and returns
`not (white_king_destroyed and black_king_destroyed)`. -/
def simulate_explosion (b : Board) (row col : Int) : Bool :=
  let flags := (blast_cells row col).foldl
    (fun (fl : Bool × Bool) rc =>
      let piece := iget b rc.1 rc.2
      if piece = 'K' then (true, fl.2)
      else if piece = 'k' then (fl.1, true)
      else fl) (false, false)
  !(flags.1 && flags.2)

/-- One iteration of the clearing loop of `explode`: records a destroyed king
in `_game_state` and clears the cell. -/
def explode_step (g : ChessVar) (rc : Int × Int) : ChessVar :=
  let piece := iget g.game_board rc.1 rc.2
  if piece ≠ '.' then
    let g' := if is_king piece then
        (if piece = 'K' then { g with game_state := "BLACK_WON" }
         else { g with game_state := "WHITE_WON" })
      else g
    { g' with game_board := bset g'.game_board rc.1 rc.2 '.' }
  else g

/-- `explode`: first the flag-collecting loop (guarded by
`piece.lower() == 'k'`), then the early `return False` when both kings are in
the radius, then the clearing loop. -/
def explode (g : ChessVar) (row col : Int) : Bool × ChessVar :=
  let cells := blast_cells row col
  let flags := cells.foldl
    (fun (fl : Bool × Bool) rc =>
      let piece := iget g.game_board rc.1 rc.2
      if piece.toLower = 'k' then (fl.1 || (piece == 'K'), fl.2 || (piece == 'k'))
      else fl) (false, false)
  if flags.1 && flags.2 then (false, g)
  else (true, cells.foldl explode_step g)

/-- `update_game_state`: scan the whole board for both kings, then
`if not white_king: BLACK_WON elif not black_king: WHITE_WON`. -/
def update_game_state (g : ChessVar) : ChessVar :=
  let flags := (List.finRange 8).foldl
    (fun (fl : Bool × Bool) i =>
      (List.finRange 8).foldl
        (fun (fl2 : Bool × Bool) j =>
          let piece := g.game_board i j
          (fl2.1 || (piece == 'K'), fl2.2 || (piece == 'k'))) fl)
    (false, false)
  if !flags.1 then { g with game_state := "BLACK_WON" }
  else if !flags.2 then { g with game_state := "WHITE_WON" }
  else g

/-- The common tail of `make_move` after a successful (non-reverted) board
mutation: `update_game_state`, then flip `_current_player` when the game is
still unfinished, then `return True`. -/
def make_move_finish (g2 : ChessVar) : Bool × ChessVar :=
  let g3 := update_game_state g2
  if g3.game_state = "UNFINISHED" then
    (true, { g3 with current_player := if g3.current_player = "WHITE" then "BLACK" else "WHITE" })
  else (true, g3)

/-- `make_move`.  The result is `none` when the Python code would raise
(malformed notation or an out-of-range board index), otherwise
`some (returned boolean, state after the call)`. -/
def make_move (g : ChessVar) (start_square end_square : Char × Char) :
    Option (Bool × ChessVar) :=
  if g.game_state ≠ "UNFINISHED" then some (false, g)
  else
    match chess_notation_to_index start_square with
    | none => none
    | some (start_row, start_col) =>
      match chess_notation_to_index end_square with
      | none => none
      | some (end_row, end_col) =>
        match is_valid_move g start_row start_col end_row end_col with
        | none => none
        | some valid =>
          if ¬ valid then some (false, g)
          else
            let moving_piece := iget g.game_board start_row start_col
            let captured_piece := iget g.game_board end_row end_col
            let board1 := bset (bset g.game_board start_row start_col '.') end_row end_col moving_piece
            let g1 : ChessVar := { g with game_board := board1 }
            if captured_piece ≠ '.' then
              if ¬ simulate_explosion board1 end_row end_col then
                let board2 := bset (bset board1 start_row start_col moving_piece) end_row end_col captured_piece
                some (false, { g1 with game_board := board2 })
              else
                some (make_move_finish (explode g1 end_row end_col).2)
            else
              some (make_move_finish g1)

/-- Build a board function from a list of rows (used only for concrete
boards; out-of-range lookups cannot occur for the 8x8 lists supplied). -/
def mkBoard (l : List (List Char)) : Board :=
  fun i j => ((l.getD i.val []).getD j.val '.')

/-- The initial arrangement of `__init__`. -/
def chessvar_init : ChessVar :=
  { game_board := mkBoard
      [['r', 'n', 'b', 'q', 'k', 'b', 'n', 'r'],
       ['p', 'p', 'p', 'p', 'p', 'p', 'p', 'p'],
       ['.', '.', '.', '.', '.', '.', '.', '.'],
       ['.', '.', '.', '.', '.', '.', '.', '.'],
       ['.', '.', '.', '.', '.', '.', '.', '.'],
       ['.', '.', '.', '.', '.', '.', '.', '.'],
       ['P', 'P', 'P', 'P', 'P', 'P', 'P', 'P'],
       ['R', 'N', 'B', 'Q', 'K', 'B', 'N', 'R']],
    current_player := "WHITE",
    game_state := "UNFINISHED" }

/-! ### Basic lemmas about board access and update -/

theorem finEmod_val_of_inb {i : Int} (h0 : 0 ≤ i) (h8 : i < 8) :
    (finEmod i).val = i.toNat := by
  simp only [finEmod]
  omega

theorem finEmod_inj {i i' : Int} (h0 : 0 ≤ i) (h8 : i < 8) (h0' : 0 ≤ i') (h8' : i' < 8)
    (h : finEmod i = finEmod i') : i = i' := by
  have hv := congrArg Fin.val h
  simp only [finEmod] at hv
  omega

theorem pyIdx_of_inb {i : Int} (h0 : -8 ≤ i) (h8 : i < 8) :
    pyIdx i = some (finEmod i) := by
  simp [pyIdx, h0, h8]

theorem bget_of_inb {b : Board} {r c : Int} (hr0 : -8 ≤ r) (hr8 : r < 8)
    (hc0 : -8 ≤ c) (hc8 : c < 8) : bget b r c = some (iget b r c) := by
  simp [bget, pyIdx_of_inb, iget, *]

theorem bset_apply (b : Board) (r c : Int) (v : Char) (i j : Fin 8) :
    bset b r c v i j = if i = finEmod r ∧ j = finEmod c then v else b i j := rfl

/-- Writing back the moving piece to the start cell and the captured piece
to the end cell undoes the tentative move exactly. -/
theorem revert_board (b : Board) (sr sc er ec : Int) :
    bset (bset (bset (bset b sr sc '.') er ec (iget b sr sc)) sr sc (iget b sr sc))
      er ec (iget b er ec) = b := by
  funext i j
  simp only [bset, iget]
  by_cases h1 : i = finEmod er ∧ j = finEmod ec
  · rw [if_pos h1, h1.1, h1.2]
  · rw [if_neg h1]
    by_cases h2 : i = finEmod sr ∧ j = finEmod sc
    · rw [if_pos h2, h2.1, h2.2]
    · rw [if_neg h2, if_neg h1, if_neg h2]

/-! ### Preservation lemmas for the commit path of `make_move` -/

theorem update_game_state_board (g : ChessVar) :
    (update_game_state g).game_board = g.game_board := by
  unfold update_game_state
  dsimp only
  split_ifs <;> rfl

theorem update_game_state_player (g : ChessVar) :
    (update_game_state g).current_player = g.current_player := by
  unfold update_game_state
  dsimp only
  split_ifs <;> rfl

theorem explode_step_player (g : ChessVar) (rc : Int × Int) :
    (explode_step g rc).current_player = g.current_player := by
  unfold explode_step
  dsimp only
  split_ifs <;> rfl

theorem foldl_explode_step_player (l : List (Int × Int)) (g : ChessVar) :
    (l.foldl explode_step g).current_player = g.current_player := by
  induction l generalizing g with
  | nil => rfl
  | cons x xs ih => rw [List.foldl_cons, ih, explode_step_player]

theorem explode_player (g : ChessVar) (row col : Int) :
    ((explode g row col).2).current_player = g.current_player := by
  unfold explode
  dsimp only
  split
  · rfl
  · exact foldl_explode_step_player _ _

theorem make_move_finish_fst (g2 : ChessVar) : (make_move_finish g2).1 = true := by
  unfold make_move_finish
  dsimp only
  split_ifs <;> rfl

/-! ### Totality: `is_valid_move` (and hence `make_move`) never raises -/

theorem finEmod_sub8 (i : Int) : finEmod (i - 8) = finEmod i := by
  apply Fin.ext
  simp only [finEmod]
  omega

theorem bishop_scan_succ (b : Board) (er ec s t cr cc : Int) (f : Nat) :
    bishop_scan b er ec s t cr cc (f + 1) =
      if cr ≠ er ∧ cc ≠ ec then
        match bget b cr cc with
        | none => none
        | some piece =>
          if piece = '.' then bishop_scan b er ec s t (cr + s) (cc + t) f
          else some false
      else some true := rfl

/-- When `is_valid_bishop_move` is called with equal start and end squares,
its loop walks down-left with Python's negative-index wrap-around and hits
the (occupied) start square again after eight steps, returning `False`
before any index can go out of range. -/
theorem bishop_scan_self {b : Board} {sr sc : Int}
    (hsr0 : 0 ≤ sr) (hsr8 : sr < 8) (hsc0 : 0 ≤ sc) (hsc8 : sc < 8)
    (hne : iget b sr sc ≠ '.') :
    ∀ j : Nat, j ≤ 7 → ∀ fuel : Nat, j < fuel →
      bishop_scan b sr sc (-1) (-1) (sr - (8 - (j : Int))) (sc - (8 - (j : Int))) fuel
        = some false := by
  intro j
  induction j with
  | zero =>
    intro _ fuel hf
    obtain ⟨f, rfl⟩ : ∃ f, fuel = f + 1 := ⟨fuel - 1, by omega⟩
    rw [bishop_scan_succ, if_pos (by constructor <;> omega)]
    rw [bget_of_inb (by omega) (by omega) (by omega) (by omega)]
    have hcell : iget b (sr - (8 - ((0 : Nat) : Int))) (sc - (8 - ((0 : Nat) : Int)))
        = iget b sr sc := by
      simp only [iget]
      rw [show sr - (8 - ((0 : Nat) : Int)) = sr - 8 by push_cast; ring,
          show sc - (8 - ((0 : Nat) : Int)) = sc - 8 by push_cast; ring,
          finEmod_sub8, finEmod_sub8]
    rw [hcell]
    simp [hne]
  | succ j ih =>
    intro hj7 fuel hf
    obtain ⟨f, rfl⟩ : ∃ f, fuel = f + 1 := ⟨fuel - 1, by omega⟩
    rw [bishop_scan_succ, if_pos (by constructor <;> [skip; skip] <;> push_cast <;> omega)]
    rw [bget_of_inb (by push_cast; omega) (by push_cast; omega)
        (by push_cast; omega) (by push_cast; omega)]
    by_cases hdot : iget b (sr - (8 - ((j + 1 : Nat) : Int))) (sc - (8 - ((j + 1 : Nat) : Int))) = '.'
    · rw [hdot]
      simp only [if_pos rfl]
      rw [show sr - (8 - ((j + 1 : Nat) : Int)) + -1 = sr - (8 - (j : Int)) by push_cast; ring,
          show sc - (8 - ((j + 1 : Nat) : Int)) + -1 = sc - (8 - (j : Int)) by push_cast; ring]
      exact ih (by omega) f (by omega)
    · simp only [if_neg hdot]

/-- When the while loop walks a genuine diagonal toward the end square, every
visited index is in range and the loop stops at the end square. -/
theorem bishop_scan_toward {b : Board} (er ec s t : Int)
    (hs : s = 1 ∨ s = -1) (ht : t = 1 ∨ t = -1) :
    ∀ m : Nat,
      (∀ i : Nat, 0 < i → i ≤ m →
        -8 ≤ er - i * s ∧ er - i * s < 8 ∧ -8 ≤ ec - i * t ∧ ec - i * t < 8) →
      ∀ fuel : Nat, m < fuel →
        (bishop_scan b er ec s t (er - m * s) (ec - m * t) fuel).isSome := by
  intro m
  induction m with
  | zero =>
    intro _ fuel hf
    obtain ⟨f, rfl⟩ : ∃ f, fuel = f + 1 := ⟨fuel - 1, by omega⟩
    rw [bishop_scan_succ]
    rw [if_neg (by push_cast; simp)]
    simp
  | succ m ih =>
    intro hrange fuel hf
    obtain ⟨f, rfl⟩ : ∃ f, fuel = f + 1 := ⟨fuel - 1, by omega⟩
    have hbounds := hrange (m + 1) (by omega) (by omega)
    rw [bishop_scan_succ,
        if_pos (by constructor <;> rcases hs with rfl | rfl <;> rcases ht with rfl | rfl <;>
          push_cast <;> omega)]
    rw [bget_of_inb hbounds.1 hbounds.2.1 hbounds.2.2.1 hbounds.2.2.2]
    by_cases hdot : iget b (er - (m + 1 : Nat) * s) (ec - (m + 1 : Nat) * t) = '.'
    · rw [hdot]
      simp only [if_pos rfl]
      rw [show er - ((m + 1 : Nat) : Int) * s + s = er - (m : Int) * s by push_cast; ring,
          show ec - ((m + 1 : Nat) : Int) * t + t = ec - (m : Int) * t by push_cast; ring]
      exact ih (fun i hi1 hi2 => hrange i hi1 (by omega)) f (by omega)
    · simp only [if_neg hdot]
      rfl

/-- The loop of `is_valid_bishop_move`, entered at the first square after the
start along the chosen direction, always produces a result when the start/end
squares are on the board a diagonal apart. -/
theorem bishop_scan_start_isSome {b : Board} {sr sc er ec s t : Int}
    (hs : s = 1 ∨ s = -1) (ht : t = 1 ∨ t = -1)
    (hd : ∃ d : Nat, 0 < d ∧ d ≤ 7 ∧ er = sr + d * s ∧ ec = sc + d * t)
    (hsr0 : 0 ≤ sr) (hsr8 : sr < 8) (her0 : 0 ≤ er) (her8 : er < 8)
    (hsc0 : 0 ≤ sc) (hsc8 : sc < 8) (hec0 : 0 ≤ ec) (hec8 : ec < 8) :
    (bishop_scan b er ec s t (sr + s) (sc + t) 32).isSome := by
  obtain ⟨d, hd0, hd7, herd, hecd⟩ := hd
  have h1 : sr + s = er - ((d - 1 : Nat) : Int) * s := by
    rcases hs with rfl | rfl <;> omega
  have h2 : sc + t = ec - ((d - 1 : Nat) : Int) * t := by
    rcases ht with rfl | rfl <;> omega
  rw [h1, h2]
  refine bishop_scan_toward er ec s t hs ht (d - 1) (fun i hi1 hi2 => ?_) 32 (by omega)
  refine ⟨?_, ?_, ?_, ?_⟩
  · rcases hs with rfl | rfl <;> omega
  · rcases hs with rfl | rfl <;> omega
  · rcases ht with rfl | rfl <;> omega
  · rcases ht with rfl | rfl <;> omega

theorem is_valid_bishop_move_isSome {b : Board} {sr sc er ec : Int}
    (hsr0 : 0 ≤ sr) (hsr8 : sr < 8) (hsc0 : 0 ≤ sc) (hsc8 : sc < 8)
    (her0 : 0 ≤ er) (her8 : er < 8) (hec0 : 0 ≤ ec) (hec8 : ec < 8)
    (hne : iget b sr sc ≠ '.') :
    (is_valid_bishop_move b sr sc er ec).isSome := by
  unfold is_valid_bishop_move
  split
  · simp
  · rename_i habs
    push_neg at habs
    dsimp only
    by_cases heq : sr = er
    · have hceq : sc = ec := by omega
      subst heq
      subst hceq
      rw [if_neg (by omega), if_neg (by omega)]
      have := bishop_scan_self hsr0 hsr8 hsc0 hsc8 hne 7 (by omega) 32 (by omega)
      rw [show sr - (8 - ((7 : Nat) : Int)) = sr + -1 by push_cast; ring,
          show sc - (8 - ((7 : Nat) : Int)) = sc + -1 by push_cast; ring] at this
      rw [this]
      rfl
    · have hcne : sc ≠ ec := by
        intro hc
        apply heq
        omega
      refine bishop_scan_start_isSome ?_ ?_ ?_ hsr0 hsr8 her0 her8 hsc0 hsc8 hec0 hec8
      · split <;> simp
      · split <;> simp
      · refine ⟨(sr - er).natAbs, by omega, by omega, ?_, ?_⟩
        · split <;> omega
        · split <;> omega

theorem mem_pyRange_one {a b x : Int} (h : x ∈ pyRange a b 1) : a ≤ x ∧ x < b := by
  simp [pyRange, List.mem_map, List.mem_range] at h
  obtain ⟨k, hk, rfl⟩ := h
  omega

theorem mem_pyRange_neg_one {a b x : Int} (h : x ∈ pyRange a b (-1)) : b < x ∧ x ≤ a := by
  simp [pyRange, List.mem_map, List.mem_range] at h
  obtain ⟨k, hk, rfl⟩ := h
  omega

theorem scan_cells_isSome {b : Board} :
    ∀ l : List (Int × Int),
      (∀ rc ∈ l, -8 ≤ rc.1 ∧ rc.1 < 8 ∧ -8 ≤ rc.2 ∧ rc.2 < 8) →
      (scan_cells b l).isSome := by
  intro l
  induction l with
  | nil => intro _; rfl
  | cons rc rest ih =>
    intro h
    obtain ⟨r, c⟩ := rc
    obtain ⟨h1, h2, h3, h4⟩ := h (r, c) (List.mem_cons_self (r, c) rest)
    simp only [scan_cells]
    rw [bget_of_inb h1 h2 h3 h4]
    dsimp only
    split
    · exact ih (fun x hx => h x (List.mem_cons_of_mem (r, c) hx))
    · rfl

theorem is_valid_rook_move_isSome {b : Board} {cp : String} {sr sc er ec : Int}
    (hsr0 : 0 ≤ sr) (hsr8 : sr < 8) (hsc0 : 0 ≤ sc) (hsc8 : sc < 8)
    (her0 : 0 ≤ er) (her8 : er < 8) (hec0 : 0 ≤ ec) (hec8 : ec < 8) :
    (is_valid_rook_move b cp sr sc er ec).isSome := by
  unfold is_valid_rook_move
  split
  · simp
  · dsimp only
    have hscan :
        (if sr = er then
          scan_cells b ((pyRange (sc + (if ec > sc then 1 else -1)) ec
            (if ec > sc then 1 else -1)).map (fun c => (sr, c)))
        else
          scan_cells b ((pyRange (sr + (if er > sr then 1 else -1)) er
            (if er > sr then 1 else -1)).map (fun r => (r, sc)))).isSome := by
      split
      · apply scan_cells_isSome
        intro rc hrc
        simp only [List.mem_map] at hrc
        obtain ⟨c, hc, rfl⟩ := hrc
        split at hc
        · have := mem_pyRange_one hc
          exact ⟨by omega, by omega, by omega, by omega⟩
        · have := mem_pyRange_neg_one hc
          exact ⟨by omega, by omega, by omega, by omega⟩
      · apply scan_cells_isSome
        intro rc hrc
        simp only [List.mem_map] at hrc
        obtain ⟨r, hr, rfl⟩ := hrc
        split at hr
        · have := mem_pyRange_one hr
          exact ⟨by omega, by omega, by omega, by omega⟩
        · have := mem_pyRange_neg_one hr
          exact ⟨by omega, by omega, by omega, by omega⟩
    obtain ⟨v, hv⟩ := Option.isSome_iff_exists.mp hscan
    rw [hv]
    match v with
    | false => rfl
    | true =>
      dsimp only
      rw [bget_of_inb (by omega) (by omega) (by omega) (by omega)]
      dsimp only
      split <;> rfl

theorem is_valid_king_move_isSome {b : Board} {sr sc er ec : Int}
    (her0 : 0 ≤ er) (her8 : er < 8) (hec0 : 0 ≤ ec) (hec8 : ec < 8) :
    (is_valid_king_move b sr sc er ec).isSome := by
  unfold is_valid_king_move
  split
  · rw [bget_of_inb (by omega) (by omega) (by omega) (by omega)]
    rfl
  · rfl

theorem is_valid_pawn_move_isSome {b : Board} {cp : String} {sr sc er ec : Int}
    (hsr0 : 0 ≤ sr) (hsr8 : sr < 8) (hsc0 : 0 ≤ sc) (hsc8 : sc < 8)
    (her0 : 0 ≤ er) (her8 : er < 8) (hec0 : 0 ≤ ec) (hec8 : ec < 8) :
    (is_valid_pawn_move b cp sr sc er ec).isSome := by
  unfold is_valid_pawn_move
  rw [bget_of_inb (by omega) (by omega) (by omega) (by omega)]
  dsimp only
  obtain ⟨dir, hdireq, hdirval⟩ :
      ∃ d : Int, (if (iget b sr sc).isLower then (1 : Int) else -1) = d ∧ (d = 1 ∨ d = -1) :=
    ⟨_, rfl, by split <;> simp⟩
  rw [hdireq]
  by_cases hcol : sc = ec
  · rw [if_pos hcol, bget_of_inb (by omega) (by omega) (by omega) (by omega)]
    dsimp only
    by_cases hdest : iget b er ec = '.'
    · rw [if_pos hdest]
      by_cases hone : sr + dir = er
      · rw [if_pos hone]
        rfl
      · rw [if_neg hone]
        by_cases hg : sr + 2 * dir = er ∧ (sr = 1 ∨ sr = 6)
        · rw [if_pos hg,
              bget_of_inb (by rcases hdirval with rfl | rfl <;> omega)
                (by rcases hdirval with rfl | rfl <;> omega) (by omega) (by omega)]
          dsimp only
          split <;> rfl
        · rw [if_neg hg]
          rfl
    · rw [if_neg hdest]
      rfl
  · rw [if_neg hcol]
    by_cases hcap : (sc - ec).natAbs = 1 ∧ sr + dir = er
    · rw [if_pos hcap, bget_of_inb (by omega) (by omega) (by omega) (by omega)]
      rfl
    · rw [if_neg hcap]
      rfl

theorem is_valid_queen_move_isSome {b : Board} {cp : String} {sr sc er ec : Int}
    (hsr0 : 0 ≤ sr) (hsr8 : sr < 8) (hsc0 : 0 ≤ sc) (hsc8 : sc < 8)
    (her0 : 0 ≤ er) (her8 : er < 8) (hec0 : 0 ≤ ec) (hec8 : ec < 8)
    (hne : iget b sr sc ≠ '.') :
    (is_valid_queen_move b cp sr sc er ec).isSome := by
  unfold is_valid_queen_move
  have hb := is_valid_bishop_move_isSome hsr0 hsr8 hsc0 hsc8 her0 her8 hec0 hec8 hne
  obtain ⟨v, hv⟩ := Option.isSome_iff_exists.mp hb
  rw [hv]
  match v with
  | true => rfl
  | false =>
    exact is_valid_rook_move_isSome hsr0 hsr8 hsc0 hsc8 her0 her8 hec0 hec8

/-- `is_valid_move` never raises: the bounds checks run before any board
access, and every access the validators then make is in range (or, for the
degenerate bishop diagonal, wraps around until it re-reads the occupied
start square). -/
theorem is_valid_move_isSome (g : ChessVar) (sr sc er ec : Int) :
    (is_valid_move g sr sc er ec).isSome := by
  unfold is_valid_move
  split
  · rfl
  · split
    · rfl
    · rename_i hsb heb
      push_neg at hsb heb
      obtain ⟨hsr0, hsr8, hsc0, hsc8⟩ := hsb
      obtain ⟨her0, her8, hec0, hec8⟩ := heb
      rw [bget_of_inb (by omega) (by omega) (by omega) (by omega)]
      dsimp only
      split
      · rfl
      · split
        · rfl
        · rename_i hdot _
          split
          · exact is_valid_pawn_move_isSome hsr0 hsr8 hsc0 hsc8 her0 her8 hec0 hec8
          · split
            · rfl
            · split
              · exact is_valid_bishop_move_isSome hsr0 hsr8 hsc0 hsc8 her0 her8 hec0 hec8 hdot
              · split
                · exact is_valid_rook_move_isSome hsr0 hsr8 hsc0 hsc8 her0 her8 hec0 hec8
                · split
                  · exact is_valid_queen_move_isSome hsr0 hsr8 hsc0 hsc8 her0 her8 hec0 hec8 hdot
                  · split
                    · exact is_valid_king_move_isSome her0 her8 hec0 hec8
                    · rfl

theorem chess_notation_ok {f r : Char} (h1 : '1' ≤ r) (h2 : r ≤ '8') :
    chess_notation_to_index (f, r) =
      some (8 - ((r.toNat : Int) - ('0'.toNat : Int)), (f.toNat : Int) - ('a'.toNat : Int)) := by
  unfold chess_notation_to_index
  rw [if_pos ⟨le_trans (by decide) h1, le_trans h2 (by decide)⟩]

theorem is_valid_move_bounds {g : ChessVar} {sr sc er ec : Int}
    (h : is_valid_move g sr sc er ec = some true) :
    (0 ≤ sr ∧ sr < 8 ∧ 0 ≤ sc ∧ sc < 8) ∧ (0 ≤ er ∧ er < 8 ∧ 0 ≤ ec ∧ ec < 8) := by
  unfold is_valid_move at h
  split at h
  · simp at h
  · split at h
    · simp at h
    · rename_i h1 h2
      exact ⟨not_not.mp h1, not_not.mp h2⟩

/-- C2: from any game state, `make_move` on two well-formed coordinate pairs
(file 'a'-'h', rank '1'-'8') terminates with a boolean result and never
raises or accesses the board out of range (`isSome` of the model excludes
the `none` that stands for any Python exception). -/
theorem make_move_total (g : ChessVar) (f1 r1 f2 r2 : Char)
    (hf1 : 'a' ≤ f1) (hf1h : f1 ≤ 'h') (hr1 : '1' ≤ r1) (hr18 : r1 ≤ '8')
    (hf2 : 'a' ≤ f2) (hf2h : f2 ≤ 'h') (hr2 : '1' ≤ r2) (hr28 : r2 ≤ '8') :
    (make_move g (f1, r1) (f2, r2)).isSome := by
  unfold make_move
  split
  · rfl
  · rw [chess_notation_ok hr1 hr18, chess_notation_ok hr2 hr28]
    dsimp only
    obtain ⟨v, hv⟩ := Option.isSome_iff_exists.mp (is_valid_move_isSome g _ _ _ _)
    rw [hv]
    dsimp only
    split_ifs <;> rfl

/-- C2 witness, at the degenerate input where the start and end squares
coincide and the moving piece is a bishop (the path where the diagonal
path-scanning loop runs with Python's negative-index wrap-around). -/
theorem make_move_total_witness :
    ('a' ≤ 'c' ∧ 'c' ≤ 'h' ∧ '1' ≤ '1' ∧ '1' ≤ '8' ∧ 'a' ≤ 'c' ∧ 'c' ≤ 'h' ∧
      '1' ≤ '1' ∧ '1' ≤ '8') ∧
    (make_move chessvar_init ('c', '1') ('c', '1')).isSome :=
  ⟨by decide,
   make_move_total chessvar_init 'c' '1' 'c' '1' (by decide) (by decide) (by decide)
     (by decide) (by decide) (by decide) (by decide) (by decide)⟩

/-- C3: whenever `make_move` returns `False`, the resulting state is exactly
the pre-call state (board, player and game state), and repeating the same
call returns `False` again on the identical state. -/
theorem make_move_false_noop {g g' : ChessVar} {ss es : Char × Char}
    (h : make_move g ss es = some (false, g')) :
    g' = g ∧ make_move g ss es = some (false, g) := by
  have hg : g' = g := by
    unfold make_move at h
    split at h
    · exact ((Prod.mk.injEq _ _ _ _).mp (Option.some.inj h)).2.symm
    · split at h
      · exact absurd h (by simp)
      · split at h
        · exact absurd h (by simp)
        · split at h
          · exact absurd h (by simp)
          · split at h
            · exact ((Prod.mk.injEq _ _ _ _).mp (Option.some.inj h)).2.symm
            · dsimp only at h
              split at h
              · split at h
                · have h2 := ((Prod.mk.injEq _ _ _ _).mp (Option.some.inj h)).2
                  rw [revert_board] at h2
                  exact h2.symm.trans rfl
                · have hfst := congrArg Prod.fst (Option.some.inj h)
                  rw [make_move_finish_fst] at hfst
                  exact Bool.noConfusion hfst
              · have hfst := congrArg Prod.fst (Option.some.inj h)
                rw [make_move_finish_fst] at hfst
                exact Bool.noConfusion hfst
  exact ⟨hg, hg ▸ h⟩

/-- C3 witness: a blocked rook move from the initial position is rejected
with the state unchanged. -/
theorem make_move_false_noop_witness :
    chessvar_init = chessvar_init ∧
    make_move chessvar_init ('a', '1') ('a', '3') = some (false, chessvar_init) :=
  @make_move_false_noop chessvar_init chessvar_init ('a', '1') ('a', '3') rfl

/-! ### C1: double-king blast rejection -/

/-- A state in which the white rook on a4 can capture the black king on e4
while the white king stands on e5 (row 3, column 4), adjacent to the
destination. -/
def c1_game : ChessVar :=
  { game_board := mkBoard
      [['.', '.', '.', '.', '.', '.', '.', '.'],
       ['.', '.', '.', '.', '.', '.', '.', '.'],
       ['.', '.', '.', '.', '.', '.', '.', '.'],
       ['.', '.', '.', '.', 'K', '.', '.', '.'],
       ['R', '.', '.', '.', 'k', '.', '.', '.'],
       ['.', '.', '.', '.', '.', '.', '.', '.'],
       ['.', '.', '.', '.', '.', '.', '.', '.'],
       ['.', '.', '.', '.', '.', '.', '.', '.']],
    current_player := "WHITE",
    game_state := "UNFINISHED" }

/-- C1 counterexample: on `c1_game` the 3x3 neighborhood of e4 on the board
BEFORE the move contains both kings (`simulate_explosion` on the pre-move
board returns `False`), the move a4-e4 is a capture, and yet `make_move`
accepts it and returns `True`: the code evaluates the blast on the board
after the tentative move, from which the captured black king is already
gone. -/
theorem c1_before_blast_counterexample :
    simulate_explosion c1_game.game_board 4 4 = false ∧
    chess_notation_to_index ('a', '4') = some (4, 0) ∧
    chess_notation_to_index ('e', '4') = some (4, 4) ∧
    iget c1_game.game_board 4 4 ≠ '.' ∧
    (make_move c1_game ('a', '4') ('e', '4')).map Prod.fst = some true := by
  refine ⟨by decide, by decide, by decide, by decide, by decide⟩

/-- C1 (amended): a capture whose blast radius, taken on the board AFTER the
tentative move (start square emptied, mover on the destination), contains
both a White and a Black king makes `make_move` return `False` and leave the
state exactly as before the call. -/
theorem make_move_double_king_blast_rejected {g : ChessVar} {ss es : Char × Char}
    {sr sc er ec : Int}
    (hd1 : chess_notation_to_index ss = some (sr, sc))
    (hd2 : chess_notation_to_index es = some (er, ec))
    (hcap : iget g.game_board er ec ≠ '.')
    (hsim : simulate_explosion
      (bset (bset g.game_board sr sc '.') er ec (iget g.game_board sr sc)) er ec = false) :
    make_move g ss es = some (false, g) := by
  unfold make_move
  split
  · rfl
  · rw [hd1, hd2]
    dsimp only
    obtain ⟨v, hv⟩ := Option.isSome_iff_exists.mp (is_valid_move_isSome g sr sc er ec)
    rw [hv]
    dsimp only
    match v with
    | false => rw [if_pos (by simp)]
    | true =>
      rw [if_neg (by simp)]
      rw [if_pos hcap, if_pos (by rw [hsim]; simp)]
      rw [revert_board]

/-- A state in which the white rook on a4 can capture the black pawn on e4
with both kings adjacent to the destination. -/
def c1w_game : ChessVar :=
  { game_board := mkBoard
      [['.', '.', '.', '.', '.', '.', '.', '.'],
       ['.', '.', '.', '.', '.', '.', '.', '.'],
       ['.', '.', '.', '.', '.', '.', '.', '.'],
       ['.', '.', '.', 'K', '.', 'k', '.', '.'],
       ['R', '.', '.', '.', 'p', '.', '.', '.'],
       ['.', '.', '.', '.', '.', '.', '.', '.'],
       ['.', '.', '.', '.', '.', '.', '.', '.'],
       ['.', '.', '.', '.', '.', '.', '.', '.']],
    current_player := "WHITE",
    game_state := "UNFINISHED" }

/-- C1 witness: a capture with both kings inside the post-move blast radius
is rejected and the state is returned unchanged. -/
theorem make_move_double_king_blast_rejected_witness :
    (iget c1w_game.game_board 4 4 ≠ '.' ∧
     simulate_explosion
       (bset (bset c1w_game.game_board 4 0 '.') 4 4 (iget c1w_game.game_board 4 0)) 4 4
       = false) ∧
    make_move c1w_game ('a', '4') ('e', '4') = some (false, c1w_game) :=
  ⟨⟨by decide, by decide⟩,
   @make_move_double_king_blast_rejected c1w_game ('a', '4') ('e', '4') 4 0 4 4
     (by decide) (by decide) (by decide) (by decide)⟩

/-! ### C6: moving the opponent's piece is rejected -/

/-- C6: while the game is in progress, a move whose start square holds a
piece of the color that is not the current player's returns `False` and
leaves the state unchanged. -/
theorem make_move_wrong_color_rejected {g : ChessVar} {ss es : Char × Char}
    {sr sc er ec : Int}
    (hst : g.game_state = "UNFINISHED")
    (hd1 : chess_notation_to_index ss = some (sr, sc))
    (hd2 : chess_notation_to_index es = some (er, ec))
    (hcol : (g.current_player = "WHITE" ∧ (iget g.game_board sr sc).isLower) ∨
            (g.current_player = "BLACK" ∧ (iget g.game_board sr sc).isUpper)) :
    make_move g ss es = some (false, g) := by
  have hvalid : is_valid_move g sr sc er ec = some false := by
    unfold is_valid_move
    split
    · rfl
    · split
      · rfl
      · rename_i h1 _
        have hb := not_not.mp h1
        rw [bget_of_inb (by omega) (by omega) (by omega) (by omega)]
        dsimp only
        split
        · rfl
        · rw [if_pos ?gate]
          case gate =>
            rcases hcol with ⟨hw, hl⟩ | ⟨hbk, hu⟩
            · exact Or.inr ⟨hl, hw⟩
            · exact Or.inl ⟨hu, hbk⟩
  unfold make_move
  rw [if_neg (by rw [hst]; simp), hd1, hd2]
  dsimp only
  rw [hvalid]
  dsimp only
  rw [if_pos (by simp)]

/-- C6 witness: White attempting to move the black pawn g7-g5 from the
initial position is rejected. -/
theorem make_move_wrong_color_rejected_witness :
    (chessvar_init.game_state = "UNFINISHED" ∧
     (chessvar_init.current_player = "WHITE" ∧
       (iget chessvar_init.game_board 1 6).isLower)) ∧
    make_move chessvar_init ('g', '7') ('g', '5') = some (false, chessvar_init) :=
  ⟨⟨by decide, by decide, by decide⟩,
   @make_move_wrong_color_rejected chessvar_init ('g', '7') ('g', '5') 1 6 3 6
     (by decide) (by decide) (by decide) (Or.inl ⟨by decide, by decide⟩)⟩

/-! ### C8: turn toggling -/

theorem make_move_finish_player (g2 : ChessVar) :
    ((make_move_finish g2).2.game_state = "UNFINISHED" →
      (make_move_finish g2).2.current_player =
        (if g2.current_player = "WHITE" then "BLACK" else "WHITE")) ∧
    ((make_move_finish g2).2.game_state ≠ "UNFINISHED" →
      (make_move_finish g2).2.current_player = g2.current_player) := by
  unfold make_move_finish
  dsimp only
  split
  · rename_i hu
    refine ⟨fun _ => ?_, fun hne => absurd hu hne⟩
    dsimp only
    rw [update_game_state_player]
  · rename_i hu
    exact ⟨fun hc => absurd hc hu, fun _ => update_game_state_player g2⟩

theorem make_move_finish_turn (g0 g2 : ChessVar)
    (hpl : g2.current_player = g0.current_player) :
    ((make_move_finish g2).2.game_state = "UNFINISHED" →
      (make_move_finish g2).2.current_player =
        (if g0.current_player = "WHITE" then "BLACK" else "WHITE")) ∧
    ((make_move_finish g2).2.game_state ≠ "UNFINISHED" →
      (make_move_finish g2).2.current_player = g0.current_player) := by
  rw [← hpl]
  exact make_move_finish_player g2

/-- C8: after any accepted move, if the game is still unfinished the current
player has toggled to the opposite color, and if the game has ended the
current player is unchanged. -/
theorem make_move_accepted_turn {g g' : ChessVar} {ss es : Char × Char}
    (h : make_move g ss es = some (true, g')) :
    (g'.game_state = "UNFINISHED" →
      g'.current_player = (if g.current_player = "WHITE" then "BLACK" else "WHITE")) ∧
    (g'.game_state ≠ "UNFINISHED" → g'.current_player = g.current_player) := by
  unfold make_move at h
  split at h
  · exact absurd (congrArg Prod.fst (Option.some.inj h)) (by simp)
  · split at h
    · exact absurd h (by simp)
    · split at h
      · exact absurd h (by simp)
      · split at h
        · exact absurd h (by simp)
        · split at h
          · exact absurd (congrArg Prod.fst (Option.some.inj h)) (by simp)
          · dsimp only at h
            split at h
            · split at h
              · exact absurd (congrArg Prod.fst (Option.some.inj h)) (by simp)
              · have h2 := congrArg Prod.snd (Option.some.inj h)
                subst h2
                exact make_move_finish_turn g _ (explode_player _ _ _)
            · have h2 := congrArg Prod.snd (Option.some.inj h)
              subst h2
              exact make_move_finish_turn g _ rfl

/-- C8 witness: after the accepted opening move d2-d4 the game is still
unfinished and the turn has passed to Black. -/
theorem make_move_accepted_turn_witness :
    make_move chessvar_init ('d', '2') ('d', '4') =
      some (true, ((make_move chessvar_init ('d', '2') ('d', '4')).getD
        (false, chessvar_init)).2) ∧
    ((make_move chessvar_init ('d', '2') ('d', '4')).getD (false, chessvar_init)).2.current_player
      = "BLACK" := by
  refine ⟨rfl, ?_⟩
  have := (@make_move_accepted_turn chessvar_init
    ((make_move chessvar_init ('d', '2') ('d', '4')).getD (false, chessvar_init)).2
    ('d', '2') ('d', '4') rfl).1 (by decide)
  rw [this]
  decide

/-! ### C7: an accepted capture clears the whole blast neighborhood -/

theorem iget_bset_self (b : Board) (r c : Int) (v : Char) :
    iget (bset b r c v) r c = v := by
  unfold iget bset
  rw [if_pos ⟨rfl, rfl⟩]

theorem iget_bset_dot {b : Board} {r c : Int} (h : iget b r c = '.') (r' c' : Int) :
    iget (bset b r' c' '.') r c = '.' := by
  unfold iget bset
  split
  · rfl
  · exact h

theorem explode_step_preserves_dot {g : ChessVar} {r c : Int}
    (h : iget g.game_board r c = '.') (rc : Int × Int) :
    iget (explode_step g rc).game_board r c = '.' := by
  unfold explode_step
  dsimp only
  split_ifs <;> first
    | exact iget_bset_dot h rc.1 rc.2
    | exact h

theorem foldl_explode_preserves_dot {r c : Int} :
    ∀ (l : List (Int × Int)) (g : ChessVar), iget g.game_board r c = '.' →
      iget ((l.foldl explode_step g)).game_board r c = '.' := by
  intro l
  induction l with
  | nil => intro g h; exact h
  | cons x xs ih =>
    intro g h
    rw [List.foldl_cons]
    exact ih _ (explode_step_preserves_dot h x)

theorem explode_step_clears_self (g : ChessVar) (rc : Int × Int) :
    iget (explode_step g rc).game_board rc.1 rc.2 = '.' := by
  unfold explode_step
  dsimp only
  split_ifs with h1 h2 h3
  · exact iget_bset_self _ _ _ _
  · exact iget_bset_self _ _ _ _
  · exact iget_bset_self _ _ _ _
  · exact not_not.mp h1

theorem foldl_explode_clears :
    ∀ (l : List (Int × Int)) (g : ChessVar) (rc : Int × Int), rc ∈ l →
      iget ((l.foldl explode_step g)).game_board rc.1 rc.2 = '.' := by
  intro l
  induction l with
  | nil => intro g rc h; exact absurd h (List.not_mem_nil rc)
  | cons x xs ih =>
    intro g rc h
    rw [List.foldl_cons]
    rcases List.mem_cons.mp h with rfl | hmem
    · exact foldl_explode_preserves_dot xs _ (explode_step_clears_self g rc)
    · exact ih _ rc hmem

/-- The two flag-collecting loops of `explode` and `simulate_explosion`
compute the same pair of booleans. -/
theorem explode_flags_eq (b : Board) (cells : List (Int × Int)) :
    ∀ fl : Bool × Bool,
      cells.foldl (fun (fl : Bool × Bool) rc =>
        let piece := iget b rc.1 rc.2
        if piece.toLower = 'k' then (fl.1 || (piece == 'K'), fl.2 || (piece == 'k'))
        else fl) fl =
      cells.foldl (fun (fl : Bool × Bool) rc =>
        let piece := iget b rc.1 rc.2
        if piece = 'K' then (true, fl.2)
        else if piece = 'k' then (fl.1, true)
        else fl) fl := by
  induction cells with
  | nil => intro fl; rfl
  | cons rc rest ih =>
    intro fl
    rw [List.foldl_cons, List.foldl_cons]
    have hstep :
        (let piece := iget b rc.1 rc.2
         if piece.toLower = 'k' then (fl.1 || (piece == 'K'), fl.2 || (piece == 'k'))
         else fl) =
        (let piece := iget b rc.1 rc.2
         if piece = 'K' then (true, fl.2)
         else if piece = 'k' then (fl.1, true)
         else fl) := by
      dsimp only
      by_cases hK : iget b rc.1 rc.2 = 'K'
      · rw [hK, if_pos (by decide), if_pos rfl]
        simp
      · by_cases hk : iget b rc.1 rc.2 = 'k'
        · rw [hk, if_pos (by decide), if_neg (by decide), if_pos rfl]
          simp
        · rw [if_neg hK, if_neg hk]
          split
          · rw [beq_eq_false_iff_ne.mpr hK, beq_eq_false_iff_ne.mpr hk]
            simp
          · rfl
    rw [hstep, ih]

/-- When `simulate_explosion` has approved the blast, the internal
double-king check of `explode` cannot fire, and `explode` runs its clearing
loop. -/
theorem explode_of_simulate_true {g : ChessVar} {row col : Int}
    (h : simulate_explosion g.game_board row col = true) :
    (explode g row col).2 = (blast_cells row col).foldl explode_step g := by
  unfold simulate_explosion at h
  dsimp only at h
  rw [Bool.not_eq_eq_eq_not, Bool.not_true, Bool.and_eq_false_iff] at h
  unfold explode
  dsimp only
  rw [explode_flags_eq]
  rw [if_neg (by rcases h with h | h <;> rw [Bool.and_eq_true] <;> simp [h])]

theorem make_move_finish_board (g2 : ChessVar) :
    (make_move_finish g2).2.game_board = g2.game_board := by
  unfold make_move_finish
  dsimp only
  split
  · exact update_game_state_board g2
  · exact update_game_state_board g2

/-- C7: after any accepted capture, every cell of the clipped 3x3
neighborhood of the destination square is empty — the explosion removes
every piece there uniformly, pawns and the capturing piece included. -/
theorem make_move_capture_clears_blast {g g' : ChessVar} {ss es : Char × Char}
    {er ec : Int}
    (hd2 : chess_notation_to_index es = some (er, ec))
    (hcap : iget g.game_board er ec ≠ '.')
    (h : make_move g ss es = some (true, g')) :
    ∀ rc ∈ blast_cells er ec, iget g'.game_board rc.1 rc.2 = '.' := by
  unfold make_move at h
  split at h
  · exact absurd (congrArg Prod.fst (Option.some.inj h)) (by simp)
  · split at h
    · exact absurd h (by simp)
    · rw [hd2] at h
      dsimp only at h
      split at h
      · exact absurd h (by simp)
      · split at h
        · exact absurd (congrArg Prod.fst (Option.some.inj h)) (by simp)
        · split at h
          · exact absurd (congrArg Prod.fst (Option.some.inj h)) (by simp)
          · rename_i hsim
            have h2 := congrArg Prod.snd (Option.some.inj h)
            subst h2
            rw [make_move_finish_board, explode_of_simulate_true (not_not.mp hsim)]
            intro rc hrc
            exact foldl_explode_clears _ _ rc hrc

/-- A state in which the white rook on a4 captures the black pawn on e4,
with both kings far from the blast. -/
def c7_game : ChessVar :=
  { game_board := mkBoard
      [['k', '.', '.', '.', '.', '.', '.', '.'],
       ['.', '.', '.', '.', '.', '.', '.', '.'],
       ['.', '.', '.', '.', '.', '.', '.', '.'],
       ['.', '.', '.', '.', '.', '.', '.', '.'],
       ['R', '.', '.', '.', 'p', '.', '.', '.'],
       ['.', '.', '.', '.', '.', '.', '.', '.'],
       ['.', '.', '.', '.', '.', '.', '.', '.'],
       ['.', '.', '.', '.', '.', '.', 'K', '.']],
    current_player := "WHITE",
    game_state := "UNFINISHED" }

/-- The state after the accepted capture a4-e4 on `c7_game`. -/
def c7_after : ChessVar :=
  ((make_move c7_game ('a', '4') ('e', '4')).getD (false, c7_game)).2

/-- C7 witness: after the capture on e4, the destination cell itself (which
held the capturing rook for a moment) is empty. -/
theorem make_move_capture_clears_blast_witness :
    (iget c7_game.game_board 4 4 ≠ '.' ∧
     make_move c7_game ('a', '4') ('e', '4') = some (true, c7_after)) ∧
    iget c7_after.game_board 4 4 = '.' :=
  ⟨⟨by decide, rfl⟩,
   @make_move_capture_clears_blast c7_game c7_after ('a', '4') ('e', '4') 4 4
     (by decide) (by decide) rfl (4, 4) (by decide)⟩

/-! ### C5: king moves -/

/-- C5: for a king standing on the start square, `is_valid_king_move`
accepts exactly the moves with |Δrow| ≤ 1, |Δcol| ≤ 1, a non-zero
displacement and an empty destination (a zero displacement is rejected
because the destination then holds the king itself). -/
theorem is_valid_king_move_spec {b : Board} {sr sc er ec : Int}
    (hsr0 : 0 ≤ sr) (hsr8 : sr < 8) (hsc0 : 0 ≤ sc) (hsc8 : sc < 8)
    (her0 : 0 ≤ er) (her8 : er < 8) (hec0 : 0 ≤ ec) (hec8 : ec < 8)
    (hking : is_king (iget b sr sc) = true) :
    (is_valid_king_move b sr sc er ec = some true ↔
      ((sr - er).natAbs ≤ 1 ∧ (sc - ec).natAbs ≤ 1 ∧ ¬(sr = er ∧ sc = ec) ∧
        iget b er ec = '.')) := by
  have hne : iget b sr sc ≠ '.' := by
    intro hdot
    rw [hdot] at hking
    exact absurd hking (by decide)
  unfold is_valid_king_move
  split
  · rename_i hgeo
    rw [bget_of_inb (by omega) (by omega) (by omega) (by omega)]
    constructor
    · intro hsome
      have hdot : iget b er ec = '.' := of_decide_eq_true (Option.some.inj hsome)
      refine ⟨hgeo.1, hgeo.2, ?_, hdot⟩
      rintro ⟨rfl, rfl⟩
      exact hne hdot
    · rintro ⟨-, -, -, hdot⟩
      rw [hdot]
      rfl
  · rename_i hgeo
    constructor
    · intro hsome
      exact absurd (Option.some.inj hsome) (by simp)
    · rintro ⟨h1, h2, -, -⟩
      exact absurd ⟨h1, h2⟩ hgeo

/-- A board holding a single white king on e4. -/
def c5_board : Board := mkBoard
  [['.', '.', '.', '.', '.', '.', '.', '.'],
   ['.', '.', '.', '.', '.', '.', '.', '.'],
   ['.', '.', '.', '.', '.', '.', '.', '.'],
   ['.', '.', '.', '.', '.', '.', '.', '.'],
   ['.', '.', '.', '.', 'K', '.', '.', '.'],
   ['.', '.', '.', '.', '.', '.', '.', '.'],
   ['.', '.', '.', '.', '.', '.', '.', '.'],
   ['.', '.', '.', '.', '.', '.', '.', '.']]

/-- C5 witness: the one-step king move e4-f4 on `c5_board`. -/
theorem is_valid_king_move_spec_witness :
    ((0 : Int) ≤ 4 ∧ (4 : Int) < 8 ∧ (0 : Int) ≤ 5 ∧ (5 : Int) < 8 ∧
      is_king (iget c5_board 4 4) = true) ∧
    (is_valid_king_move c5_board 4 4 4 5 = some true ↔
      ((4 - 4 : Int).natAbs ≤ 1 ∧ (4 - 5 : Int).natAbs ≤ 1 ∧
        ¬((4 : Int) = 4 ∧ (4 : Int) = 5) ∧ iget c5_board 4 5 = '.')) :=
  ⟨by decide,
   is_valid_king_move_spec (by decide) (by decide) (by decide) (by decide)
     (by decide) (by decide) (by decide) (by decide) (by decide)⟩

/-! ### C9: two-step pawn moves -/

/-- C9: a two-step quiet pawn move (same column, two rows forward for the
pawn's color, empty intermediate and destination squares, both endpoints on
the board) is judged legal by `is_valid_move` exactly when the pawn stands
on its starting rank: row 1 for a Black pawn, row 6 for a White pawn. -/
theorem is_valid_move_pawn_two_step {b : Board} {cp st : String} {sr sc er ec : Int}
    (hsr0 : 0 ≤ sr) (hsr8 : sr < 8) (hsc0 : 0 ≤ sc) (hsc8 : sc < 8)
    (her0 : 0 ≤ er) (her8 : er < 8)
    (hp : iget b sr sc = 'p' ∨ iget b sr sc = 'P')
    (hturn : (iget b sr sc = 'p' → cp = "BLACK") ∧ (iget b sr sc = 'P' → cp = "WHITE"))
    (hec : ec = sc)
    (her : er = sr + 2 * (if (iget b sr sc).isLower then (1 : Int) else -1))
    (hmid : iget b (sr + (if (iget b sr sc).isLower then (1 : Int) else -1)) sc = '.')
    (hdest : iget b er ec = '.') :
    is_valid_move { game_board := b, current_player := cp, game_state := st } sr sc er ec
      = some (decide (sr = if (iget b sr sc).isLower then 1 else 6)) := by
  subst hec
  rcases hp with hp | hp
  · have hcp := hturn.1 hp
    subst hcp
    rw [hp] at her hmid ⊢
    rw [if_pos (by decide : ('p'.isLower = true))] at her hmid ⊢
    unfold is_valid_move
    dsimp only
    rw [if_neg (not_not_intro ⟨hsr0, hsr8, hsc0, hsc8⟩),
        if_neg (not_not_intro ⟨her0, her8, hsc0, hsc8⟩),
        bget_of_inb (by omega) (by omega) (by omega) (by omega)]
    dsimp only
    rw [hp]
    rw [if_neg (by decide : ¬('p' = '.')), if_neg (by decide), if_pos (by decide : ('p'.toLower = 'p'))]
    unfold is_valid_pawn_move
    rw [bget_of_inb (by omega) (by omega) (by omega) (by omega)]
    dsimp only
    rw [hp]
    rw [if_pos (by decide : ('p'.isLower = true)), if_pos rfl,
        bget_of_inb (by omega) (by omega) (by omega) (by omega)]
    dsimp only
    rw [hdest, if_pos rfl, if_neg (by omega : ¬(sr + 1 = er))]
    by_cases h16 : sr = 1 ∨ sr = 6
    · rw [if_pos ⟨by omega, h16⟩,
          bget_of_inb (by omega) (by omega) (by omega) (by omega)]
      dsimp only
      rw [hmid, if_pos rfl]
      have h1 : sr = 1 := by
        rcases h16 with h | h
        · exact h
        · omega
      subst h1
      rfl
    · push_neg at h16
      rw [if_neg (by rintro ⟨-, h | h⟩; exacts [h16.1 h, h16.2 h])]
      rw [decide_eq_false h16.1]
  · have hcp := hturn.2 hp
    subst hcp
    rw [hp] at her hmid ⊢
    rw [if_neg (by decide : ¬('P'.isLower = true))] at her hmid ⊢
    unfold is_valid_move
    dsimp only
    rw [if_neg (not_not_intro ⟨hsr0, hsr8, hsc0, hsc8⟩),
        if_neg (not_not_intro ⟨her0, her8, hsc0, hsc8⟩),
        bget_of_inb (by omega) (by omega) (by omega) (by omega)]
    dsimp only
    rw [hp]
    rw [if_neg (by decide : ¬('P' = '.')), if_neg (by decide), if_pos (by decide : ('P'.toLower = 'p'))]
    unfold is_valid_pawn_move
    rw [bget_of_inb (by omega) (by omega) (by omega) (by omega)]
    dsimp only
    rw [hp]
    rw [if_neg (by decide : ¬('P'.isLower = true)), if_pos rfl,
        bget_of_inb (by omega) (by omega) (by omega) (by omega)]
    dsimp only
    rw [hdest, if_pos rfl, if_neg (by omega : ¬(sr + -1 = er))]
    by_cases h16 : sr = 1 ∨ sr = 6
    · rw [if_pos ⟨by omega, h16⟩,
          bget_of_inb (by omega) (by omega) (by omega) (by omega)]
      dsimp only
      rw [hmid, if_pos rfl]
      have h6 : sr = 6 := by
        rcases h16 with h | h
        · omega
        · exact h
      subst h6
      rfl
    · push_neg at h16
      rw [if_neg (by rintro ⟨-, h | h⟩; exacts [h16.1 h, h16.2 h])]
      rw [decide_eq_false h16.2]

/-- C9 witness: the white pawn d2-d4 two-step from the initial board is
judged legal (its start row 6 is the white starting rank). -/
theorem is_valid_move_pawn_two_step_witness :
    ((iget chessvar_init.game_board 6 3 = 'p' ∨ iget chessvar_init.game_board 6 3 = 'P') ∧
      iget chessvar_init.game_board 5 3 = '.' ∧ iget chessvar_init.game_board 4 3 = '.') ∧
    is_valid_move ⟨chessvar_init.game_board, "WHITE", "UNFINISHED"⟩ 6 3 4 3
      = some (decide ((6 : Int) = if (iget chessvar_init.game_board 6 3).isLower then 1 else 6)) :=
  ⟨⟨by decide, by decide, by decide⟩,
   @is_valid_move_pawn_two_step chessvar_init.game_board "WHITE" "UNFINISHED" 6 3 4 3
     (by decide) (by decide) (by decide) (by decide) (by decide) (by decide)
     (by decide) ⟨by decide, fun _ => rfl⟩ (by decide) (by decide) (by decide) (by decide)⟩

/-! ### C10: both kings absent -/

/-- C10: on a board with no White king (in particular with neither king),
`update_game_state` declares Black the winner: the White-king check runs
first and takes priority. -/
theorem update_game_state_no_kings {g : ChessVar}
    (hK : ∀ i j : Fin 8, g.game_board i j ≠ 'K')
    (hk : ∀ i j : Fin 8, g.game_board i j ≠ 'k') :
    (update_game_state g).game_state = "BLACK_WON" := by
  have hinner : ∀ (i : Fin 8) (l : List (Fin 8)) (fl : Bool × Bool), fl.1 = false →
      (l.foldl (fun (fl2 : Bool × Bool) j =>
        (fl2.1 || (g.game_board i j == 'K'), fl2.2 || (g.game_board i j == 'k'))) fl).1
        = false := by
    intro i l
    induction l with
    | nil => intro fl h; exact h
    | cons x xs ih =>
      intro fl h
      rw [List.foldl_cons]
      apply ih
      dsimp only
      rw [h, beq_eq_false_iff_ne.mpr (hK i x)]
      rfl
  have houter : ∀ (l : List (Fin 8)) (fl : Bool × Bool), fl.1 = false →
      (l.foldl (fun (fl : Bool × Bool) i =>
        (List.finRange 8).foldl (fun (fl2 : Bool × Bool) j =>
          (fl2.1 || (g.game_board i j == 'K'), fl2.2 || (g.game_board i j == 'k'))) fl) fl).1
        = false := by
    intro l
    induction l with
    | nil => intro fl h; exact h
    | cons x xs ih =>
      intro fl h
      rw [List.foldl_cons]
      exact ih _ (hinner x _ _ h)
  unfold update_game_state
  dsimp only
  rw [if_pos (by rw [houter (List.finRange 8) (false, false) rfl]; rfl)]

/-- An in-progress state whose board has no piece at all. -/
def c10_game : ChessVar :=
  { game_board := mkBoard
      [['.', '.', '.', '.', '.', '.', '.', '.'],
       ['.', '.', '.', '.', '.', '.', '.', '.'],
       ['.', '.', '.', '.', '.', '.', '.', '.'],
       ['.', '.', '.', '.', '.', '.', '.', '.'],
       ['.', '.', '.', '.', '.', '.', '.', '.'],
       ['.', '.', '.', '.', '.', '.', '.', '.'],
       ['.', '.', '.', '.', '.', '.', '.', '.'],
       ['.', '.', '.', '.', '.', '.', '.', '.']],
    current_player := "WHITE",
    game_state := "UNFINISHED" }

/-- C10 witness: on the empty board the game state becomes BLACK_WON. -/
theorem update_game_state_no_kings_witness :
    ((∀ i j : Fin 8, c10_game.game_board i j ≠ 'K') ∧
      (∀ i j : Fin 8, c10_game.game_board i j ≠ 'k')) ∧
    (update_game_state c10_game).game_state = "BLACK_WON" :=
  ⟨⟨by decide, by decide⟩, update_game_state_no_kings (by decide) (by decide)⟩

/-! ### C4: the documented opening sequence -/

/-- The state after `make_move('d2','d4')` from the initial position. -/
def c4_g1 : ChessVar :=
  ((make_move chessvar_init ('d', '2') ('d', '4')).getD (false, chessvar_init)).2

/-- The state after the further `make_move('g7','g5')`. -/
def c4_g2 : ChessVar :=
  ((make_move c4_g1 ('g', '7') ('g', '5')).getD (false, c4_g1)).2

/-- The state after the further `make_move('c1','g5')`. -/
def c4_g3 : ChessVar :=
  ((make_move c4_g2 ('c', '1') ('g', '5')).getD (false, c4_g2)).2

/-- C4: from a fresh game, d2-d4, g7-g5 and the bishop capture c1-g5 all
return `True`, and the game is still unfinished afterwards (the explosion
removed only the bishop and the captured pawn, no king). -/
theorem opening_sequence_accepted :
    (make_move chessvar_init ('d', '2') ('d', '4')).map Prod.fst = some true ∧
    (make_move c4_g1 ('g', '7') ('g', '5')).map Prod.fst = some true ∧
    (make_move c4_g2 ('c', '1') ('g', '5')).map Prod.fst = some true ∧
    get_game_state c4_g3 = "UNFINISHED" :=
  ⟨by decide, by decide, by decide, by decide⟩

